import Mathlib

/-!
Shallow embedding of `bricks/core/dispatch.py` (classes `Task`, `Worker`,
`Dispatcher`) together with the parts of the Python standard library the code
inherits from (`concurrent.futures.Future`).  Machine-level Python values that
the dispatcher never inspects are coded as opaque natural numbers.
-/

namespace Bricks

/-- A Python value as far as `dispatch.py` inspects it: the code only ever
distinguishes lists, tuples and dicts from everything else
(`isinstance(x, (list, tuple))`, `isinstance(x, dict)`), so all other values
are opaque scalars.  A scalar with code `0` stands for a falsy value
(for example `0` or `None`), every other scalar is truthy. -/
inductive PyVal where
  | scalar : Nat → PyVal
  | list : List PyVal → PyVal
  | tuple : List PyVal → PyVal
  | dict : List Nat → PyVal
deriving Repr

/-- Python truthiness for the values of `PyVal`: empty sequences and mappings
are falsy, the scalar coded `0` is falsy, everything else is truthy. -/
def PyVal.truthy : PyVal → Bool
  | .scalar n => n ≠ 0
  | .list xs => ¬ xs.isEmpty
  | .tuple xs => ¬ xs.isEmpty
  | .dict es => ¬ es.isEmpty

/-- The test `isinstance(x, (list, tuple))` from `make_task`. -/
def PyVal.isListOrTuple : PyVal → Bool
  | .list _ => true
  | .tuple _ => true
  | _ => false

/-- The test `isinstance(x, dict)` from `make_task`. -/
def PyVal.isDict : PyVal → Bool
  | .dict _ => true
  | _ => false

/-- Exceptions that the embedded code can raise. -/
inductive PyErr where
  | attributeError
  | invalidStateError
  | assertionError
deriving DecidableEq, Repr

/-- States of a `concurrent.futures.Future` (`_base.py`).  The dispatcher never
calls `set_running_or_notify_cancel`, but the full state set is kept. -/
inductive FState where
  | pending
  | running
  | cancelled
  | cancelledAndNotified
  | finished
deriving DecidableEq, Repr

/-- The instance attributes installed by `concurrent.futures.Future.__init__`:
`_state`, `_result`, `_exception`, `_done_callbacks` (`_condition` and
`_waiters` are synchronization plumbing; the existence of the attribute set as
a whole is what matters for attribute errors). -/
structure FutureInternals where
  state : FState
  result : Option PyVal
  exception : Option Nat
  doneCallbacks : List Nat
deriving Repr

/-- `Future.__init__`: state `PENDING`, no result, no exception, no
callbacks. -/
def futureInitInternals : FutureInternals :=
  { state := .pending, result := none, exception := none, doneCallbacks := [] }

/-- The `Task` object of `dispatch.py` (a subclass of `Future`).  `internals`
is `none` as long as `Future.__init__` has not yet run on the object, in which
case touching `self._condition` or `self._done_callbacks` raises
`AttributeError`.  Callables are opaque codes. -/
structure PyTask where
  func : Option Nat
  args : PyVal
  kwargs : PyVal
  callback : Option Nat
  dispatcher : Bool
  worker : Option Nat
  future : Bool
  internals : Option FutureInternals
deriving Repr

/-- `Future.add_done_callback` (`_base.py`): reads `self._condition` and
`self._done_callbacks`, which exist only after `Future.__init__` has run;
before that the attribute access raises `AttributeError`.  On a non-terminal
future the callback is appended; on a terminal one it would be invoked
immediately (returned in the second component). -/
def addDoneCallback (t : PyTask) (fn : Nat) : Except PyErr (PyTask × List Nat) :=
  match t.internals with
  | none => .error .attributeError
  | some fi =>
    if fi.state = .cancelled ∨ fi.state = .cancelledAndNotified ∨ fi.state = .finished then
      .ok (t, [fn])
    else
      .ok ({ t with internals := some { fi with doneCallbacks := fi.doneCallbacks ++ [fn] } }, [])

/-- `Task.__init__` from `dispatch.py`, line by line: the plain attributes are
assigned (`args or []`, `kwargs or {}` with Python truthiness), then
`callback and self.add_done_callback(callback)` runs, and only afterwards
`super().__init__()` installs the `Future` internals. -/
def taskInit (func : Option Nat) (args kwargs : PyVal) (callback : Option Nat) :
    Except PyErr PyTask :=
  let t : PyTask :=
    { func := func
      args := if args.truthy then args else .list []
      kwargs := if kwargs.truthy then kwargs else .dict []
      callback := callback
      dispatcher := false
      worker := none
      future := false
      internals := none }
  match callback with
  | none => .ok { t with internals := some futureInitInternals }
  | some cb =>
    match addDoneCallback t cb with
    | .error e => .error e
    | .ok (t2, _) => .ok { t2 with internals := some futureInitInternals }

/-- A descriptor mapping as consumed by `Dispatcher.make_task`: each key may be
absent (`task.get` returns `None`, modelled as `none`). -/
structure Descriptor where
  func : Option Nat
  args : Option PyVal
  kwargs : Option PyVal
  callback : Option Nat

/-- The argument of `make_task`: `Union[dict, Task]`. -/
inductive TaskOrDescriptor where
  | task : PyTask → TaskOrDescriptor
  | descriptor : Descriptor → TaskOrDescriptor

/-- The `args` normalization of `make_task`: `task.get('args', [])`, then
`[positional] if not isinstance(positional, (list, tuple)) else positional`. -/
def normalizeArgs (args : Option PyVal) : PyVal :=
  let positional := args.getD (.list [])
  if positional.isListOrTuple then positional else .list [positional]

/-- The `kwargs` normalization of `make_task`: `task.get('kwargs', {})`, then
`{} if not isinstance(keyword, dict) else keyword`. -/
def normalizeKwargs (kwargs : Option PyVal) : PyVal :=
  let keyword := kwargs.getD (.dict [])
  if keyword.isDict then keyword else .dict []

/-- `Dispatcher.make_task`: a `Task` instance passes through unchanged; a
descriptor is normalized and handed to the `Task` constructor. -/
def make_task : TaskOrDescriptor → Except PyErr PyTask
  | .task t => .ok t
  | .descriptor d =>
    taskInit d.func (normalizeArgs d.args) (normalizeKwargs d.kwargs) d.callback

/-! ### The dispatcher state machine

State-level embedding of `Dispatcher` and the observable effects of `Worker`
threads on it.  Tasks at this level are records in a task table keyed by an
identifier; worker names `worker-{n}` are coded by the counter value `n`. -/

/-- Completion state of a task as the dispatcher observes it.  `finished` and
`errored` both correspond to the `FINISHED` future state (`done()` is true for
every non-pending state here, since this code never uses `RUNNING`). -/
inductive TaskSt where
  | pending
  | cancelled
  | finished
  | errored
deriving DecidableEq, Repr

/-- `Future.done()` restricted to the states reachable in this code. -/
def TaskSt.isDone : TaskSt → Bool
  | .pending => false
  | _ => true

/-- A task record in the dispatcher-level model: its future state, the worker
currently recorded on it (`task.worker`), whether an asyncio handle has been
stored on it (`task.future`) and whether that handle was asked to cancel,
whether `submit_task` attached the semaphore-release done-callback, and
whether `task.dispatcher` has been set. -/
structure TaskC where
  id : Nat
  st : TaskSt
  worker : Option Nat
  isAsync : Bool
  future : Bool
  futureCancelled : Bool
  releaseHook : Bool
  dispatcher : Bool
deriving DecidableEq, Repr

/-- A fresh `Task` object as produced by a successful constructor call. -/
def freshTask (tid : Nat) (isAsync : Bool) : TaskC :=
  { id := tid, st := .pending, worker := none, isAsync := isAsync, future := false
    futureCancelled := false, releaseHook := false, dispatcher := false }

/-- What a worker thread is currently doing with respect to the task queue. -/
inductive WStatus where
  | idle
  | executing : Nat → WStatus
deriving DecidableEq, Repr

/-- Whether a worker currently holds a dequeued task. -/
def WStatus.isExecuting : WStatus → Bool
  | .idle => false
  | .executing _ => true

/-- A registered worker: its name code and what it is doing. -/
structure WorkerC where
  id : Nat
  status : WStatus
deriving DecidableEq, Repr

/-- The `Dispatcher` state: `queue` is `self.tasks` (task ids in FIFO order),
`workerList` is `self.workers` (a dict with unique keys, kept in insertion
order), `remain` and `sem` are the internal counters of `_remain_workers` and
`_semaphore`, `counter` is the naming counter, `running`/`shutdown` are the
two events (`shutdownScheduled` records that `stop` handed
`self._shutdown.set` to the loop via `call_soon_threadsafe`), `started`
records that the dispatcher thread was started (threads can only be started
once), `notFullNotify` counts `self.tasks.not_full.notify()` calls, and
`stoppedLog` records each worker on which `worker.stop()` was requested. -/
structure DState where
  max_workers : Nat
  queue : List Nat
  workerList : List WorkerC
  remain : Nat
  sem : Nat
  counter : Nat
  running : Bool
  shutdownScheduled : Bool
  shutdown : Bool
  started : Bool
  notFullNotify : Nat
  taskTable : List TaskC
  stoppedLog : List Nat
deriving DecidableEq, Repr

/-- `Dispatcher.__init__(max_workers)`: empty queue and registry, both
semaphores at `max_workers`, counter at zero, all flags clear. -/
def initD (mw : Nat) : DState :=
  { max_workers := mw, queue := [], workerList := [], remain := mw, sem := mw
    counter := 0, running := false, shutdownScheduled := false, shutdown := false
    started := false, notFullNotify := 0, taskTable := [], stoppedLog := [] }

/-- `Dispatcher.is_running`: `not self._shutdown.is_set() and
self._running.is_set()`. -/
def is_running (s : DState) : Bool :=
  !s.shutdown && s.running

/-- Look a task up in the task table by identity. -/
def findTask (s : DState) (tid : Nat) : Option TaskC :=
  s.taskTable.find? (fun t => t.id = tid)

/-- Mutate the task object with identity `tid` in place. -/
def updateTask (s : DState) (tid : Nat) (f : TaskC → TaskC) : DState :=
  { s with taskTable := s.taskTable.map (fun t => if t.id = tid then f t else t) }

/-- Add a caller-constructed task object to the table if it is not already
known (the caller holds the `Task`; the table models the object heap). -/
def ensureTask (s : DState) (tid : Nat) (isAsync : Bool) : DState :=
  match findTask s tid with
  | some _ => s
  | none => { s with taskTable := s.taskTable ++ [freshTask tid isAsync] }

/-- `Future._invoke_callbacks` at dispatcher level, run whenever the task
reaches a terminal state: the only done-callback the dispatcher ever attaches
is the `submit_task` hook `lambda x: self._semaphore.release()`. -/
def invokeDoneCallbacks (s : DState) (tid : Nat) : DState :=
  match findTask s tid with
  | some t => if t.releaseHook then { s with sem := s.sem + 1 } else s
  | none => s

/-- `dict.pop(ident, None)` on the worker registry: remove and return the
entry keyed `ident` if present. -/
def popWorker : List WorkerC → Nat → Option WorkerC × List WorkerC
  | [], _ => (none, [])
  | w :: rest, ident =>
    if w.id = ident then (some w, rest)
    else
      let r := popWorker rest ident
      (r.1, w :: r.2)

/-- One iteration of `Dispatcher.stop_worker`: `worker = self.workers.pop(
ident, None); worker and self._remain_workers.release(); worker and
worker.stop()`. -/
def stop_worker1 (s : DState) (ident : Nat) : DState :=
  match popWorker s.workerList ident with
  | (some w, rest) =>
    { s with workerList := rest, remain := s.remain + 1
             stoppedLog := s.stoppedLog ++ [w.id] }
  | (none, _) => s

/-- `Dispatcher.stop_worker(*idents)`. -/
def stop_worker (s : DState) (idents : List Nat) : DState :=
  idents.foldl stop_worker1 s

/-- The loop body of `Dispatcher.create_worker`: each iteration constructs a
`Worker` named by the counter, registers it, starts it, and only then
acquires one slot from `_remain_workers`.  When the acquire finds no free
slot the creating caller blocks with the worker already registered and
running; the second component reports that block. -/
def create_worker_loop : Nat → DState → DState × Bool
  | 0, s => (s, false)
  | n + 1, s =>
    let s1 : DState :=
      { s with workerList := s.workerList ++ [⟨s.counter, .idle⟩]
               counter := s.counter + 1 }
    if s1.remain > 0 then create_worker_loop n { s1 with remain := s1.remain - 1 }
    else (s1, true)

/-- `Dispatcher.create_worker(size)`. -/
def create_worker (s : DState) (size : Nat) : DState × Bool :=
  create_worker_loop size s

/-- `Dispatcher.adjust_workers`: read `_remain_workers._value` and
`tasks.qsize()`; when both are positive, create `min` of them workers. -/
def adjust_workers (s : DState) : DState × Bool :=
  let rw := s.remain
  let rt := s.queue.length
  if 0 < rw ∧ 0 < rt then create_worker s (min rw rt) else (s, false)

/-- Outcome of `Dispatcher.submit_task`: the assertion failure when the
dispatcher is not running, a submitter blocked on `self._semaphore.acquire()`
(with `task.dispatcher` already assigned), or the new state together with the
returned task handle. -/
inductive SubmitResult where
  | notRunning
  | blocked : DState → SubmitResult
  | ok : DState → Nat → SubmitResult
deriving Repr

/-- `Dispatcher.submit_task(task, timeout)`: assert running; set
`task.dispatcher`; with `timeout == -1` just enqueue, otherwise acquire one
concurrency permit (blocking when none is free), enqueue, and attach the
permit-release done-callback; finally `adjust_workers` and return the task. -/
def submit_task (s : DState) (tid : Nat) (timeout : Option Int) : SubmitResult :=
  if ¬ is_running s then .notRunning
  else
    let s0 := updateTask s tid (fun t => { t with dispatcher := true })
    if timeout = some (-1) then
      let s1 : DState := { s0 with queue := s0.queue ++ [tid] }
      .ok (adjust_workers s1).1 tid
    else
      if 0 < s0.sem then
        let s1 : DState := { s0 with sem := s0.sem - 1, queue := s0.queue ++ [tid] }
        let s2 := updateTask s1 tid (fun t => { t with releaseHook := true })
        .ok (adjust_workers s2).1 tid
      else .blocked s0

/-- `Dispatcher.cancel_task(task)`: under the queue lock, a task still present
in `self.tasks.queue` is removed and `not_full` is notified; otherwise, when a
worker is recorded on the task and the task is not done, that worker is
stopped. -/
def cancel_task (s : DState) (tid : Nat) : DState :=
  if tid ∈ s.queue then
    { s with queue := s.queue.erase tid, notFullNotify := s.notFullNotify + 1 }
  else
    match findTask s tid with
    | some t =>
      match t.worker with
      | some w => if ¬ t.st.isDone then stop_worker1 s w else s
      | none => s
    | none => s

/-- `concurrent.futures.Future.cancel` on a task of the table: running or
finished futures refuse, already-cancelled ones agree, and a pending one
transitions to cancelled and has its done-callbacks invoked. -/
def future_cancel (s : DState) (tid : Nat) : DState × Bool :=
  match findTask s tid with
  | none => (s, false)
  | some t =>
    match t.st with
    | .finished => (s, false)
    | .errored => (s, false)
    | .cancelled => (s, true)
    | .pending =>
      let s1 := updateTask s tid (fun u => { u with st := .cancelled })
      (invokeDoneCallbacks s1 tid, true)

/-- First statement of `Task.cancel`: `self.dispatcher and
self.dispatcher.cancel_task(self)`. -/
def task_cancel_step1 (s : DState) (tid : Nat) : DState :=
  match findTask s tid with
  | some t => if t.dispatcher then cancel_task s tid else s
  | none => s

/-- Second statement of `Task.cancel`: `self.future and self.future.cancel()`
(asking the asyncio handle, when one was stored, to cancel). -/
def task_cancel_step2 (s : DState) (tid : Nat) : DState :=
  match findTask s tid with
  | some t =>
    if t.future then updateTask s tid (fun u => { u with futureCancelled := true }) else s
  | none => s

/-- `Task.cancel`: `self.dispatcher and self.dispatcher.cancel_task(self)`,
then `self.future and self.future.cancel()`, then `super().cancel()`. -/
def task_cancel (s : DState) (tid : Nat) : DState × Bool :=
  future_cancel (task_cancel_step2 (task_cancel_step1 s tid) tid) tid

/-- Result of `Dispatcher.create_future(task)`: one of its two assertion
failures, or success. -/
inductive CreateFutureResult where
  | notRunning
  | notAsync
  | ok : DState → CreateFutureResult
deriving Repr

/-- `Dispatcher.create_future(task)`: assert running, assert the task is
async, then hand the coroutine to the shared loop. -/
def create_future (s : DState) (tid : Nat) : CreateFutureResult :=
  if ¬ is_running s then .notRunning
  else
    match findTask s tid with
    | some t => if t.isAsync then .ok s else .notAsync
    | none => .notAsync

/-- A worker with a free hand takes the head of the queue (`tasks.get`) and
records itself on it (`task.worker = self`); only possible while the
dispatcher runs and something is queued. -/
def worker_dequeue (s : DState) (wid : Nat) : DState :=
  match s.queue with
  | [] => s
  | tid :: rest =>
    if is_running s ∧ (s.workerList.find? (fun w => w.id = wid)).any (fun w => w.status = .idle) then
      let s1 : DState := { s with queue := rest }
      let s2 := updateTask s1 tid (fun t => { t with worker := some wid })
      let wl := s2.workerList.map
        (fun w => if w.id = wid then { w with status := .executing tid } else w)
      { s2 with workerList := wl }
    else s

/-- The worker finishes its current task normally: `task.set_result(ret)`
moves a pending future to finished and invokes its done-callbacks, and the
worker returns to the top of its loop. -/
def worker_complete (s : DState) (wid : Nat) : DState :=
  match (s.workerList.find? (fun w => w.id = wid)).map (fun w => w.status) with
  | some (WStatus.executing tid) =>
    match findTask s tid with
    | some t =>
      if t.st = .pending then
        let s1 := updateTask s tid (fun u => { u with st := .finished })
        let s2 := invokeDoneCallbacks s1 tid
        let wl := s2.workerList.map
          (fun w => if w.id = wid then { w with status := .idle } else w)
        { s2 with workerList := wl }
      else s
    | none => s
  | _ => s

/-- The bounded dequeue wait elapses with nothing queued (`queue.Empty`): the
worker deregisters itself through `stop_worker` and its loop returns. -/
def worker_idle_timeout (s : DState) (wid : Nat) : DState :=
  if s.queue = [] ∧ (s.workerList.find? (fun w => w.id = wid)).isSome then
    stop_worker s [wid]
  else s

/-- `Dispatcher.start`: a thread can only be started once (a second call
raises without touching the state); the first call spawns `run`, whose `main`
coroutine sets `_running`, and `start` returns once the flag is up. -/
def d_start (s : DState) : DState :=
  if s.started then s
  else { s with started := true, running := true }

/-- `Dispatcher.stop`: stop every registered worker, hand `_shutdown.set` to
the loop with `call_soon_threadsafe`, and clear `_running`. -/
def d_stop (s : DState) : DState :=
  let s1 := stop_worker s (s.workerList.map (fun w => w.id))
  { s1 with shutdownScheduled := true, running := false }

/-- The event loop inside `run` executes the scheduled `_shutdown.set`
callback. -/
def d_loop_step (s : DState) : DState :=
  if s.started ∧ s.shutdownScheduled then { s with shutdown := true } else s

/-- The operations that callers and worker threads can perform on a
dispatcher, interleaved sequentially. -/
inductive DOp where
  | start
  | stop
  | loopStep
  | createWorker : Nat → DOp
  | stopWorker : List Nat → DOp
  | adjust
  | submit : Nat → Option Int → DOp
  | dequeue : Nat → DOp
  | complete : Nat → DOp
  | idleTimeout : Nat → DOp
  | cancel : Nat → DOp
deriving Repr

/-- Apply one operation; the boolean reports that the performing caller
blocked (on the slot semaphore or the concurrency semaphore), with the state
as mutated up to the blocking point. -/
def runOp (s : DState) : DOp → DState × Bool
  | .start => (d_start s, false)
  | .stop => (d_stop s, false)
  | .loopStep => (d_loop_step s, false)
  | .createWorker n => create_worker s n
  | .stopWorker ids => (stop_worker s ids, false)
  | .adjust => adjust_workers s
  | .submit tid timeout =>
    match submit_task (ensureTask s tid false) tid timeout with
    | .notRunning => (ensureTask s tid false, false)
    | .blocked sb => (sb, true)
    | .ok s2 _ => (s2, false)
  | .dequeue wid => (worker_dequeue s wid, false)
  | .complete wid => (worker_complete s wid, false)
  | .idleTimeout wid => (worker_idle_timeout s wid, false)
  | .cancel tid => ((task_cancel s tid).1, false)

/-- Run a sequence of operations, halting at the first blocked caller. -/
def runOps (s : DState) : List DOp → DState × Bool
  | [] => (s, false)
  | op :: rest =>
    let r := runOp s op
    if r.2 then (r.1, true) else runOps r.1 rest

/-- The `Dispatcher.running` property, exactly as computed by the source:
`self.max_workers - self._remain_workers._value + self.tasks.qsize()`. -/
def running_property (s : DState) : Int :=
  (s.max_workers : Int) - (s.remain : Int) + (s.queue.length : Int)

/-- Modelled from the spec: "`running` (count of tasks currently in flight or
queued)" — the number of tasks being executed by a worker plus the number of
tasks waiting in the queue.  Stated only to compare with
`running_property`. -/
def running_per_spec (s : DState) : Int :=
  ((s.workerList.filter (fun w => w.status.isExecuting)).length : Int) +
    (s.queue.length : Int)

/-! ### Worker execution of one task

Embedding of the try/except body of `Worker.run` around steps 4/5: invoking
the callable (or blocking on `future.result()` for a coroutine task), storing
the outcome on the task, and the two except arms.  Exceptions are opaque
codes; `KeyboardInterrupt`/`SystemExit` are kept apart because the code keeps
them apart. -/

/-- What invoking the task's callable (or waiting on its asyncio handle)
does: return a value, raise an ordinary `Exception`, or raise one of the two
process-exit signals `KeyboardInterrupt`/`SystemExit`. -/
inductive CallOutcome where
  | ret : Nat → CallOutcome
  | raiseExn : Nat → CallOutcome
  | raiseExit : Nat → CallOutcome
deriving DecidableEq, Repr

/-- The task as the worker's execution body sees it. -/
structure ExecTask where
  st : TaskSt
  result : Option Nat
  error : Option Nat
  hasFuture : Bool
deriving DecidableEq, Repr

/-- The value of `const.ERROR_OCCURRED` from `bricks/const.py`. -/
def ERROR_OCCURRED : String := "ERROR_OCCURRED"

/-- The payload of `events.Event.invoke(context.Error(error=e,
form=const.ERROR_OCCURRED))`: one structured notification handed to the
external event bus. -/
structure ErrorEvent where
  error : Nat
  form : String
deriving DecidableEq, Repr

/-- How the worker loop proceeds after one task: back to the top of the loop,
aborted by a re-raised process-exit signal, or killed by an exception that
escaped the handler itself (`set_exception` on a no-longer-pending task
raises `InvalidStateError`, and the handler's own `set_exception` call then
raises it again). -/
inductive WorkerNext where
  | keepRunning
  | exited : Nat → WorkerNext
  | crashed
deriving DecidableEq, Repr

/-- The try/except body of `Worker.run` for one dequeued task: for an async
task the asyncio handle is stored first (`task.future = future`) and the
worker blocks on `future.result()`, whose value is discarded; for a sync task
`task.set_result(ret)` stores the return value.  `KeyboardInterrupt` and
`SystemExit` are re-raised; any other exception is stored with
`task.set_exception(e)` and published once as an `ERROR_OCCURRED` event. -/
def worker_execute (isAsync : Bool) (t : ExecTask) (outcome : CallOutcome) :
    ExecTask × List ErrorEvent × WorkerNext :=
  let t0 : ExecTask := if isAsync then { t with hasFuture := true } else t
  match outcome with
  | .ret v =>
    if isAsync then (t0, [], .keepRunning)
    else if t0.st = .pending then
      ({ t0 with st := .finished, result := some v }, [], .keepRunning)
    else (t0, [], .crashed)
  | .raiseExit e => (t0, [], .exited e)
  | .raiseExn e =>
    if t0.st = .pending then
      ({ t0 with st := .errored, error := some e }, [⟨e, ERROR_OCCURRED⟩], .keepRunning)
    else (t0, [], .crashed)

/-- Why a run of the worker loop over a job list ended. -/
inductive LoopStop where
  | ranOut
  | exitedWith : Nat → LoopStop
  | crashedStop
deriving DecidableEq, Repr

/-- The worker loop restricted to its execution body: process tasks in order,
accumulating the event-bus emissions, until a process-exit signal or a
handler crash aborts it. -/
def worker_loop : List (Bool × ExecTask × CallOutcome) →
    List ExecTask × List ErrorEvent × LoopStop
  | [] => ([], [], .ranOut)
  | (isAsync, t, o) :: rest =>
    match worker_execute isAsync t o with
    | (t1, evs, .keepRunning) =>
      let r := worker_loop rest
      (t1 :: r.1, evs ++ r.2.1, r.2.2)
    | (t1, evs, .exited e) => ([t1], evs, .exitedWith e)
    | (t1, evs, .crashed) => ([t1], evs, .crashedStop)

/-! ### Concrete states used to evaluate the theorems -/

/-- The descriptor `{func: f, args: 5, kwargs absent, callback: None}` from
the spec's normalization example. -/
def exampleDesc : Descriptor :=
  { func := some 1, args := some (PyVal.scalar 5), kwargs := none, callback := none }

/-- A descriptor whose `kwargs` entry is present but not a mapping. -/
def badKwargsDesc : Descriptor :=
  { func := some 1, args := none, kwargs := some (PyVal.scalar 7), callback := none }

/-- A one-worker dispatcher that has been started, with one caller-held fresh
task object. -/
def startedD : DState := ensureTask (d_start (initD 1)) 0 false

/-- A started one-worker dispatcher right after `submit_task(task0)`: the task
sits in the queue, a worker was spawned by `adjust_workers`, nothing was
dequeued yet. -/
def queuedD : DState := (runOps (initD 1) [DOp.start, DOp.submit 0 none]).1

/-- A started one-worker dispatcher with one idle worker and an empty
queue. -/
def idleWorkerD : DState := (runOps (initD 1) [DOp.start, DOp.createWorker 1]).1

/-- The state reached from a fresh one-worker dispatcher by the single call
`create_worker(2)`: the loop registers and starts a second worker before its
slot acquisition blocks. -/
def overCreateD : DState := (runOps (initD 1) [DOp.createWorker 2]).1

/-- A started one-worker dispatcher after one task was submitted, dequeued
and completed: the worker is idle again inside its five-unit dequeue wait. -/
def idleAfterTaskD : DState :=
  (runOps (initD 1) [DOp.start, DOp.submit 0 none, DOp.dequeue 0, DOp.complete 0]).1

/-- A demand-driven lifecycle on a two-worker dispatcher: submit, execute,
complete, idle out. -/
def boundedOps : List DOp :=
  [DOp.start, DOp.submit 0 none, DOp.dequeue 0, DOp.complete 0, DOp.idleTimeout 0]

/-! ### Helper lemmas about the model -/

theorem find_map_update (l : List TaskC) (tid : Nat) (f : TaskC → TaskC)
    (hid : ∀ t, (f t).id = t.id) :
    (l.map (fun t => if t.id = tid then f t else t)).find? (fun t => t.id = tid) =
      (l.find? (fun t => t.id = tid)).map f := by
  induction l with
  | nil => rfl
  | cons t rest ih =>
    by_cases h : t.id = tid
    · simp [List.find?, h, hid]
    · simp [List.find?, h, ih]

theorem findTask_updateTask (s : DState) (tid : Nat) (f : TaskC → TaskC)
    (hid : ∀ t, (f t).id = t.id) :
    findTask (updateTask s tid f) tid = (findTask s tid).map f := by
  simpa [findTask, updateTask] using find_map_update s.taskTable tid f hid

/-- The quantity the worker-count invariant tracks: registered workers plus
free worker slots. -/
def sumW (s : DState) : Nat :=
  s.workerList.length + s.remain

/-- The control flags that decide `is_running` and restartability. -/
def flags3Eq (a b : DState) : Prop :=
  a.running = b.running ∧ a.started = b.started ∧
    a.shutdownScheduled = b.shutdownScheduled

theorem flags3Eq_refl (a : DState) : flags3Eq a a :=
  ⟨rfl, rfl, rfl⟩

theorem flags3Eq_trans {a b c : DState} (h1 : flags3Eq a b) (h2 : flags3Eq b c) :
    flags3Eq a c :=
  ⟨h1.1.trans h2.1, h1.2.1.trans h2.2.1, h1.2.2.trans h2.2.2⟩

theorem updateTask_pres (s : DState) (tid : Nat) (f : TaskC → TaskC) :
    sumW (updateTask s tid f) = sumW s ∧ flags3Eq (updateTask s tid f) s ∧
      (updateTask s tid f).max_workers = s.max_workers ∧
      (updateTask s tid f).sem = s.sem ∧ (updateTask s tid f).queue = s.queue ∧
      (updateTask s tid f).workerList = s.workerList ∧
      (updateTask s tid f).shutdown = s.shutdown ∧
      (updateTask s tid f).stoppedLog = s.stoppedLog ∧
      (updateTask s tid f).notFullNotify = s.notFullNotify :=
  ⟨rfl, flags3Eq_refl _, rfl, rfl, rfl, rfl, rfl, rfl, rfl⟩

theorem ensureTask_pres (s : DState) (tid : Nat) (ia : Bool) :
    sumW (ensureTask s tid ia) = sumW s ∧ flags3Eq (ensureTask s tid ia) s ∧
      (ensureTask s tid ia).max_workers = s.max_workers ∧
      (ensureTask s tid ia).sem = s.sem ∧ (ensureTask s tid ia).queue = s.queue ∧
      (ensureTask s tid ia).shutdown = s.shutdown := by
  unfold ensureTask
  rcases h : findTask s tid with _ | t <;>
    exact ⟨rfl, flags3Eq_refl _, rfl, rfl, rfl, rfl⟩

theorem invokeDoneCallbacks_pres (s : DState) (tid : Nat) :
    sumW (invokeDoneCallbacks s tid) = sumW s ∧
      flags3Eq (invokeDoneCallbacks s tid) s ∧
      (invokeDoneCallbacks s tid).max_workers = s.max_workers ∧
      (invokeDoneCallbacks s tid).queue = s.queue ∧
      (invokeDoneCallbacks s tid).taskTable = s.taskTable ∧
      (invokeDoneCallbacks s tid).workerList = s.workerList ∧
      (invokeDoneCallbacks s tid).shutdown = s.shutdown ∧
      (invokeDoneCallbacks s tid).stoppedLog = s.stoppedLog ∧
      (invokeDoneCallbacks s tid).notFullNotify = s.notFullNotify := by
  unfold invokeDoneCallbacks
  rcases h : findTask s tid with _ | t
  · exact ⟨rfl, flags3Eq_refl _, rfl, rfl, rfl, rfl, rfl, rfl, rfl⟩
  · dsimp only
    by_cases hr : t.releaseHook = true
    · rw [if_pos hr]
      exact ⟨rfl, ⟨rfl, rfl, rfl⟩, rfl, rfl, rfl, rfl, rfl, rfl, rfl⟩
    · rw [if_neg hr]
      exact ⟨rfl, flags3Eq_refl _, rfl, rfl, rfl, rfl, rfl, rfl, rfl⟩

theorem cwl_pres (n : Nat) (s : DState) :
    flags3Eq (create_worker_loop n s).1 s ∧
      (create_worker_loop n s).1.max_workers = s.max_workers ∧
      (create_worker_loop n s).1.sem = s.sem ∧
      (create_worker_loop n s).1.queue = s.queue ∧
      (create_worker_loop n s).1.taskTable = s.taskTable ∧
      (create_worker_loop n s).1.shutdown = s.shutdown ∧
      (create_worker_loop n s).1.stoppedLog = s.stoppedLog ∧
      (create_worker_loop n s).1.notFullNotify = s.notFullNotify := by
  induction n generalizing s with
  | zero => exact ⟨flags3Eq_refl _, rfl, rfl, rfl, rfl, rfl, rfl, rfl⟩
  | succ k ih =>
    by_cases hr : 0 < s.remain
    · have hstep :
          create_worker_loop (k + 1) s =
            create_worker_loop k
              { s with workerList := s.workerList ++ [⟨s.counter, .idle⟩]
                       counter := s.counter + 1, remain := s.remain - 1 } := by
        simp [create_worker_loop, hr]
      rw [hstep]
      exact ih _
    · have hstep :
          create_worker_loop (k + 1) s =
            ({ s with workerList := s.workerList ++ [⟨s.counter, .idle⟩]
                      counter := s.counter + 1 }, true) := by
        simp [create_worker_loop, hr]
      rw [hstep]
      exact ⟨⟨rfl, rfl, rfl⟩, rfl, rfl, rfl, rfl, rfl, rfl, rfl⟩

theorem cwl_sum (n : Nat) (s : DState) (h : (create_worker_loop n s).2 = false) :
    sumW (create_worker_loop n s).1 = sumW s := by
  induction n generalizing s with
  | zero => rfl
  | succ k ih =>
    by_cases hr : 0 < s.remain
    · have hstep :
          create_worker_loop (k + 1) s =
            create_worker_loop k
              { s with workerList := s.workerList ++ [⟨s.counter, .idle⟩]
                       counter := s.counter + 1, remain := s.remain - 1 } := by
        simp [create_worker_loop, hr]
      rw [hstep] at h ⊢
      rw [ih _ h]
      simp [sumW]
      omega
    · exfalso
      have : (create_worker_loop (k + 1) s).2 = true := by
        simp [create_worker_loop, hr]
      rw [this] at h
      exact Bool.noConfusion h

theorem cwl_noblock (n : Nat) (s : DState) (h : n ≤ s.remain) :
    (create_worker_loop n s).2 = false := by
  induction n generalizing s with
  | zero => rfl
  | succ k ih =>
    have hr : 0 < s.remain := lt_of_lt_of_le (Nat.succ_pos k) h
    have hstep :
        create_worker_loop (k + 1) s =
          create_worker_loop k
            { s with workerList := s.workerList ++ [⟨s.counter, .idle⟩]
                     counter := s.counter + 1, remain := s.remain - 1 } := by
      simp [create_worker_loop, hr]
    rw [hstep]
    exact ih _ (by simp; omega)

theorem popWorker_fst_of_mem (l : List WorkerC) (wid : Nat)
    (h : wid ∈ l.map (fun w => w.id)) : (popWorker l wid).1.isSome := by
  induction l with
  | nil => simp at h
  | cons x rest ih =>
    by_cases hx : x.id = wid
    · simp [popWorker, hx]
    · simp only [List.map_cons, List.mem_cons] at h
      rcases h with h | h
    -- the head case contradicts hx
      · exact absurd h.symm hx
      · simp only [popWorker, if_neg hx]
        exact ih h

theorem popWorker_length (l : List WorkerC) (wid : Nat) (w : WorkerC)
    (h : (popWorker l wid).1 = some w) :
    (popWorker l wid).2.length + 1 = l.length := by
  induction l with
  | nil => simp [popWorker] at h
  | cons x rest ih =>
    by_cases hx : x.id = wid
    · simp [popWorker, hx]
    · simp only [popWorker, if_neg hx] at h ⊢
      simpa using ih h

theorem popWorker_not_mem_of_nodup (l : List WorkerC) (wid : Nat)
    (hnd : (l.map (fun w => w.id)).Nodup) :
    wid ∉ (popWorker l wid).2.map (fun w => w.id) := by
  induction l with
  | nil => simp [popWorker]
  | cons x rest ih =>
    simp only [List.map_cons, List.nodup_cons] at hnd
    by_cases hx : x.id = wid
    · simp only [popWorker, if_pos hx]
      rw [hx] at hnd
      exact hnd.1
    · simp only [popWorker, if_neg hx, List.map_cons, List.mem_cons]
      push_neg
      exact ⟨fun hc => hx hc.symm, ih hnd.2⟩

theorem find_worker_isSome (l : List WorkerC) (wid : Nat) :
    (l.find? (fun w => w.id = wid)).isSome ↔ wid ∈ l.map (fun w => w.id) := by
  induction l with
  | nil => simp
  | cons x rest ih =>
    by_cases hx : x.id = wid
    · rw [List.find?_cons_of_pos _ (by simp [hx])]
      simp [hx]
    · rw [List.find?_cons_of_neg _ (by simp [hx])]
      simp only [List.map_cons, List.mem_cons, ih]
      refine ⟨fun h => Or.inr h, fun h => ?_⟩
      rcases h with h | h
      · exact absurd h.symm hx
      · exact h

theorem stop_worker1_pres (s : DState) (i : Nat) :
    flags3Eq (stop_worker1 s i) s ∧
      (stop_worker1 s i).max_workers = s.max_workers ∧
      (stop_worker1 s i).sem = s.sem ∧ (stop_worker1 s i).queue = s.queue ∧
      (stop_worker1 s i).taskTable = s.taskTable ∧
      (stop_worker1 s i).shutdown = s.shutdown ∧
      (stop_worker1 s i).notFullNotify = s.notFullNotify := by
  unfold stop_worker1
  rcases hp : popWorker s.workerList i with ⟨fst, snd⟩
  cases fst <;> exact ⟨flags3Eq_refl _, rfl, rfl, rfl, rfl, rfl, rfl⟩

theorem stop_worker1_sum (s : DState) (i : Nat) :
    sumW (stop_worker1 s i) = sumW s := by
  unfold stop_worker1
  rcases hp : popWorker s.workerList i with ⟨fst, snd⟩
  cases fst with
  | none => rfl
  | some w =>
    have hlen := popWorker_length s.workerList i w (by rw [hp])
    rw [hp] at hlen
    simp only [sumW]
    simp at hlen ⊢
    omega

theorem stop_worker_pres (ids : List Nat) (s : DState) :
    flags3Eq (stop_worker s ids) s ∧
      (stop_worker s ids).max_workers = s.max_workers ∧
      (stop_worker s ids).sem = s.sem ∧ (stop_worker s ids).queue = s.queue ∧
      (stop_worker s ids).taskTable = s.taskTable ∧
      (stop_worker s ids).shutdown = s.shutdown ∧
      sumW (stop_worker s ids) = sumW s := by
  induction ids generalizing s with
  | nil => exact ⟨flags3Eq_refl _, rfl, rfl, rfl, rfl, rfl, rfl⟩
  | cons i rest ih =>
    have hfold : stop_worker s (i :: rest) = stop_worker (stop_worker1 s i) rest := rfl
    rw [hfold]
    have h1 := stop_worker1_pres s i
    have h2 := ih (stop_worker1 s i)
    exact ⟨flags3Eq_trans h2.1 h1.1, h2.2.1.trans h1.2.1, h2.2.2.1.trans h1.2.2.1,
      h2.2.2.2.1.trans h1.2.2.2.1, h2.2.2.2.2.1.trans h1.2.2.2.2.1,
      h2.2.2.2.2.2.1.trans h1.2.2.2.2.2.1,
      h2.2.2.2.2.2.2.trans (stop_worker1_sum s i)⟩

theorem adjust_noblock (s : DState) : (adjust_workers s).2 = false := by
  show (if 0 < s.remain ∧ 0 < s.queue.length then
      create_worker s (min s.remain s.queue.length) else (s, false)).2 = false
  by_cases hc : 0 < s.remain ∧ 0 < s.queue.length
  · rw [if_pos hc]
    exact cwl_noblock _ _ (Nat.min_le_left _ _)
  · rw [if_neg hc]

theorem adjust_pres (s : DState) :
    flags3Eq (adjust_workers s).1 s ∧
      (adjust_workers s).1.max_workers = s.max_workers ∧
      (adjust_workers s).1.sem = s.sem ∧ (adjust_workers s).1.queue = s.queue ∧
      (adjust_workers s).1.taskTable = s.taskTable ∧
      (adjust_workers s).1.shutdown = s.shutdown ∧
      sumW (adjust_workers s).1 = sumW s := by
  have hstep : adjust_workers s =
      (if 0 < s.remain ∧ 0 < s.queue.length then
        create_worker s (min s.remain s.queue.length) else (s, false)) := rfl
  rw [hstep]
  by_cases hc : 0 < s.remain ∧ 0 < s.queue.length
  · rw [if_pos hc]
    have h := cwl_pres (min s.remain s.queue.length) s
    have hs := cwl_sum (min s.remain s.queue.length) s
      (cwl_noblock _ _ (Nat.min_le_left _ _))
    exact ⟨h.1, h.2.1, h.2.2.1, h.2.2.2.1, h.2.2.2.2.1, h.2.2.2.2.2.1, hs⟩
  · rw [if_neg hc]
    exact ⟨flags3Eq_refl _, rfl, rfl, rfl, rfl, rfl, rfl⟩

theorem popWorker_fst_id (l : List WorkerC) (wid : Nat) (w : WorkerC)
    (h : (popWorker l wid).1 = some w) : w.id = wid := by
  induction l with
  | nil => simp [popWorker] at h
  | cons x rest ih =>
    by_cases hx : x.id = wid
    · simp only [popWorker, if_pos hx] at h
      cases h
      exact hx
    · simp only [popWorker, if_neg hx] at h
      exact ih h

theorem findTask_congr (a b : DState) (tid : Nat) (h : a.taskTable = b.taskTable) :
    findTask a tid = findTask b tid := by
  unfold findTask
  rw [h]

theorem d_start_pres (s : DState) :
    sumW (d_start s) = sumW s ∧ (d_start s).max_workers = s.max_workers ∧
      (d_start s).shutdown = s.shutdown := by
  unfold d_start
  split <;> exact ⟨rfl, rfl, rfl⟩

theorem d_stop_pres (s : DState) :
    sumW (d_stop s) = sumW s ∧ (d_stop s).max_workers = s.max_workers ∧
      (d_stop s).started = s.started := by
  unfold d_stop
  have h := stop_worker_pres (s.workerList.map (fun w => w.id)) s
  exact ⟨h.2.2.2.2.2.2, h.2.1, h.1.2.1⟩

theorem d_loop_step_pres (s : DState) :
    sumW (d_loop_step s) = sumW s ∧ (d_loop_step s).max_workers = s.max_workers ∧
      flags3Eq (d_loop_step s) s := by
  unfold d_loop_step
  split <;> exact ⟨rfl, rfl, flags3Eq_refl _⟩

theorem worker_dequeue_pres (s : DState) (wid : Nat) :
    flags3Eq (worker_dequeue s wid) s ∧
      (worker_dequeue s wid).max_workers = s.max_workers ∧
      (worker_dequeue s wid).sem = s.sem ∧
      (worker_dequeue s wid).shutdown = s.shutdown ∧
      sumW (worker_dequeue s wid) = sumW s := by
  unfold worker_dequeue
  rcases hq : s.queue with _ | ⟨tid, rest⟩
  · exact ⟨flags3Eq_refl _, rfl, rfl, rfl, rfl⟩
  · dsimp only
    split
    · refine ⟨⟨rfl, rfl, rfl⟩, rfl, rfl, rfl, ?_⟩
      simp [sumW, updateTask]
    · exact ⟨flags3Eq_refl _, rfl, rfl, rfl, rfl⟩

theorem worker_complete_pres (s : DState) (wid : Nat) :
    flags3Eq (worker_complete s wid) s ∧
      (worker_complete s wid).max_workers = s.max_workers ∧
      (worker_complete s wid).queue = s.queue ∧
      (worker_complete s wid).shutdown = s.shutdown ∧
      sumW (worker_complete s wid) = sumW s := by
  unfold worker_complete
  split
  · rename_i tid heq
    split
    · rename_i t hf
      split
      · rename_i hpend
        have h2 := invokeDoneCallbacks_pres
          (updateTask s tid (fun u => { u with st := TaskSt.finished })) tid
        refine ⟨⟨h2.2.1.1, h2.2.1.2.1, h2.2.1.2.2⟩, h2.2.2.1, h2.2.2.2.1,
          h2.2.2.2.2.2.2.1, ?_⟩
        have hwl := h2.2.2.2.2.2.1
        calc (List.map (fun w => if w.id = wid then { w with status := WStatus.idle } else w)
              (invokeDoneCallbacks
                (updateTask s tid (fun u => { u with st := TaskSt.finished })) tid).workerList).length +
            (invokeDoneCallbacks
              (updateTask s tid (fun u => { u with st := TaskSt.finished })) tid).remain =
            sumW (invokeDoneCallbacks
              (updateTask s tid (fun u => { u with st := TaskSt.finished })) tid) := by
              simp only [sumW, List.length_map]
          _ = sumW (updateTask s tid (fun u => { u with st := TaskSt.finished })) := h2.1
          _ = sumW s := rfl
      · exact ⟨flags3Eq_refl _, rfl, rfl, rfl, rfl⟩
    · exact ⟨flags3Eq_refl _, rfl, rfl, rfl, rfl⟩
  · exact ⟨flags3Eq_refl _, rfl, rfl, rfl, rfl⟩

theorem worker_idle_timeout_pres (s : DState) (wid : Nat) :
    flags3Eq (worker_idle_timeout s wid) s ∧
      (worker_idle_timeout s wid).max_workers = s.max_workers ∧
      (worker_idle_timeout s wid).sem = s.sem ∧
      (worker_idle_timeout s wid).shutdown = s.shutdown ∧
      sumW (worker_idle_timeout s wid) = sumW s := by
  unfold worker_idle_timeout
  split
  · have h := stop_worker_pres [wid] s
    exact ⟨h.1, h.2.1, h.2.2.1, h.2.2.2.2.2.1, h.2.2.2.2.2.2⟩
  · exact ⟨flags3Eq_refl _, rfl, rfl, rfl, rfl⟩

theorem cancel_task_pres (s : DState) (tid : Nat) :
    flags3Eq (cancel_task s tid) s ∧
      (cancel_task s tid).max_workers = s.max_workers ∧
      (cancel_task s tid).sem = s.sem ∧
      (cancel_task s tid).shutdown = s.shutdown ∧
      sumW (cancel_task s tid) = sumW s ∧
      (cancel_task s tid).taskTable = s.taskTable := by
  unfold cancel_task
  split
  · exact ⟨flags3Eq_refl _, rfl, rfl, rfl, rfl, rfl⟩
  · rcases hf : findTask s tid with _ | t
    · exact ⟨flags3Eq_refl _, rfl, rfl, rfl, rfl, rfl⟩
    · dsimp only
      rcases hw : t.worker with _ | w
      · exact ⟨flags3Eq_refl _, rfl, rfl, rfl, rfl, rfl⟩
      · dsimp only
        split
        · have h := stop_worker1_pres s w
          exact ⟨h.1, h.2.1, h.2.2.1, h.2.2.2.2.2.1, stop_worker1_sum s w, h.2.2.2.2.1⟩
        · exact ⟨flags3Eq_refl _, rfl, rfl, rfl, rfl, rfl⟩

theorem future_cancel_pres (s : DState) (tid : Nat) :
    flags3Eq (future_cancel s tid).1 s ∧
      (future_cancel s tid).1.max_workers = s.max_workers ∧
      (future_cancel s tid).1.queue = s.queue ∧
      (future_cancel s tid).1.shutdown = s.shutdown ∧
      sumW (future_cancel s tid).1 = sumW s ∧
      (future_cancel s tid).1.workerList = s.workerList ∧
      (future_cancel s tid).1.stoppedLog = s.stoppedLog ∧
      (future_cancel s tid).1.notFullNotify = s.notFullNotify := by
  unfold future_cancel
  split
  · exact ⟨flags3Eq_refl _, rfl, rfl, rfl, rfl, rfl, rfl, rfl⟩
  · split <;> try exact ⟨flags3Eq_refl _, rfl, rfl, rfl, rfl, rfl, rfl, rfl⟩
    have h2 := invokeDoneCallbacks_pres
      (updateTask s tid (fun u => { u with st := TaskSt.cancelled })) tid
    exact ⟨⟨h2.2.1.1, h2.2.1.2.1, h2.2.1.2.2⟩, h2.2.2.1, h2.2.2.2.1,
      h2.2.2.2.2.2.2.1, h2.1, h2.2.2.2.2.2.1, h2.2.2.2.2.2.2.2.1,
      h2.2.2.2.2.2.2.2.2⟩

theorem task_cancel_step1_pres (s : DState) (tid : Nat) :
    flags3Eq (task_cancel_step1 s tid) s ∧
      (task_cancel_step1 s tid).max_workers = s.max_workers ∧
      (task_cancel_step1 s tid).sem = s.sem ∧
      (task_cancel_step1 s tid).shutdown = s.shutdown ∧
      sumW (task_cancel_step1 s tid) = sumW s := by
  unfold task_cancel_step1
  split
  · split
    · have h := cancel_task_pres s tid
      exact ⟨h.1, h.2.1, h.2.2.1, h.2.2.2.1, h.2.2.2.2.1⟩
    · exact ⟨flags3Eq_refl _, rfl, rfl, rfl, rfl⟩
  · exact ⟨flags3Eq_refl _, rfl, rfl, rfl, rfl⟩

theorem task_cancel_step2_pres (s : DState) (tid : Nat) :
    flags3Eq (task_cancel_step2 s tid) s ∧
      (task_cancel_step2 s tid).max_workers = s.max_workers ∧
      (task_cancel_step2 s tid).sem = s.sem ∧
      (task_cancel_step2 s tid).shutdown = s.shutdown ∧
      sumW (task_cancel_step2 s tid) = sumW s ∧
      (task_cancel_step2 s tid).queue = s.queue ∧
      (task_cancel_step2 s tid).workerList = s.workerList ∧
      (task_cancel_step2 s tid).stoppedLog = s.stoppedLog ∧
      (task_cancel_step2 s tid).notFullNotify = s.notFullNotify := by
  unfold task_cancel_step2
  split
  · split
    · exact ⟨flags3Eq_refl _, rfl, rfl, rfl, rfl, rfl, rfl, rfl, rfl⟩
    · exact ⟨flags3Eq_refl _, rfl, rfl, rfl, rfl, rfl, rfl, rfl, rfl⟩
  · exact ⟨flags3Eq_refl _, rfl, rfl, rfl, rfl, rfl, rfl, rfl, rfl⟩

theorem task_cancel_pres (s : DState) (tid : Nat) :
    flags3Eq (task_cancel s tid).1 s ∧
      (task_cancel s tid).1.max_workers = s.max_workers ∧
      (task_cancel s tid).1.shutdown = s.shutdown ∧
      sumW (task_cancel s tid).1 = sumW s := by
  unfold task_cancel
  have h1 := task_cancel_step1_pres s tid
  have h2 := task_cancel_step2_pres (task_cancel_step1 s tid) tid
  have h3 := future_cancel_pres (task_cancel_step2 (task_cancel_step1 s tid) tid) tid
  exact ⟨flags3Eq_trans (flags3Eq_trans h3.1 h2.1) h1.1,
    (h3.2.1.trans h2.2.1).trans h1.2.1,
    (h3.2.2.2.1.trans h2.2.2.2.1).trans h1.2.2.2.1,
    (h3.2.2.2.2.1.trans h2.2.2.2.2.1).trans h1.2.2.2.2⟩

theorem submit_task_pres (s : DState) (tid : Nat) (timeout : Option Int) :
    (∀ s2 r, submit_task s tid timeout = .ok s2 r →
      flags3Eq s2 s ∧ s2.max_workers = s.max_workers ∧
        sumW s2 = sumW s ∧ s2.shutdown = s.shutdown) ∧
    (∀ sb, submit_task s tid timeout = .blocked sb →
      flags3Eq sb s ∧ sb.max_workers = s.max_workers ∧
        sumW sb = sumW s ∧ sb.shutdown = s.shutdown) := by
  constructor
  · intro s2 r h
    unfold submit_task at h
    split at h
    · exact SubmitResult.noConfusion h
    · dsimp only at h
      split at h
      · injection h with h1 h2
        subst h1
        exact ⟨(adjust_pres _).1, (adjust_pres _).2.1,
          (adjust_pres _).2.2.2.2.2.2, (adjust_pres _).2.2.2.2.2.1⟩
      · split at h
        · injection h with h1 h2
          subst h1
          exact ⟨(adjust_pres _).1, (adjust_pres _).2.1,
            (adjust_pres _).2.2.2.2.2.2, (adjust_pres _).2.2.2.2.2.1⟩
        · exact SubmitResult.noConfusion h
  · intro sb h
    unfold submit_task at h
    split at h
    · exact SubmitResult.noConfusion h
    · dsimp only at h
      split at h
      · exact SubmitResult.noConfusion h
      · split at h
        · exact SubmitResult.noConfusion h
        · injection h with h1
          subst h1
          exact ⟨flags3Eq_refl _, rfl, rfl, rfl⟩

theorem runOp_sum (s : DState) (op : DOp) (h : (runOp s op).2 = false) :
    sumW (runOp s op).1 = sumW s ∧ (runOp s op).1.max_workers = s.max_workers := by
  cases op with
  | start => exact ⟨(d_start_pres s).1, (d_start_pres s).2.1⟩
  | stop => exact ⟨(d_stop_pres s).1, (d_stop_pres s).2.1⟩
  | loopStep => exact ⟨(d_loop_step_pres s).1, (d_loop_step_pres s).2.1⟩
  | createWorker n =>
    exact ⟨cwl_sum n s h, (cwl_pres n s).2.1⟩
  | stopWorker ids =>
    exact ⟨(stop_worker_pres ids s).2.2.2.2.2.2, (stop_worker_pres ids s).2.1⟩
  | adjust => exact ⟨(adjust_pres s).2.2.2.2.2.2, (adjust_pres s).2.1⟩
  | submit tid timeout =>
    have he := ensureTask_pres s tid false
    simp only [runOp] at h ⊢
    rcases hs : submit_task (ensureTask s tid false) tid timeout with _ | sb | ⟨s2, r⟩
    all_goals rw [hs] at h
    · exact ⟨he.1, he.2.2.1⟩
    · simp at h
    · have hp := (submit_task_pres (ensureTask s tid false) tid timeout).1 s2 r hs
      exact ⟨hp.2.2.1.trans he.1, hp.2.1.trans he.2.2.1⟩
  | dequeue wid =>
    exact ⟨(worker_dequeue_pres s wid).2.2.2.2, (worker_dequeue_pres s wid).2.1⟩
  | complete wid =>
    exact ⟨(worker_complete_pres s wid).2.2.2.2, (worker_complete_pres s wid).2.1⟩
  | idleTimeout wid =>
    exact ⟨(worker_idle_timeout_pres s wid).2.2.2.2, (worker_idle_timeout_pres s wid).2.1⟩
  | cancel tid =>
    exact ⟨(task_cancel_pres s tid).2.2.2, (task_cancel_pres s tid).2.1⟩

theorem runOp_flags (s : DState) (op : DOp) (hst : s.started = true)
    (hr : s.running = false) (hsch : s.shutdownScheduled = true) :
    (runOp s op).1.started = true ∧ (runOp s op).1.running = false ∧
      (runOp s op).1.shutdownScheduled = true := by
  cases op with
  | start =>
    simp only [runOp, d_start, if_pos hst]
    exact ⟨hst, hr, hsch⟩
  | stop =>
    exact ⟨(d_stop_pres s).2.2.trans hst, rfl, rfl⟩
  | loopStep =>
    have h := (d_loop_step_pres s).2.2
    exact ⟨h.2.1.trans hst, h.1.trans hr, h.2.2.trans hsch⟩
  | createWorker n =>
    have h := (cwl_pres n s).1
    exact ⟨h.2.1.trans hst, h.1.trans hr, h.2.2.trans hsch⟩
  | stopWorker ids =>
    have h := (stop_worker_pres ids s).1
    exact ⟨h.2.1.trans hst, h.1.trans hr, h.2.2.trans hsch⟩
  | adjust =>
    have h := (adjust_pres s).1
    exact ⟨h.2.1.trans hst, h.1.trans hr, h.2.2.trans hsch⟩
  | submit tid timeout =>
    have he := (ensureTask_pres s tid false).2.1
    simp only [runOp]
    rcases hs : submit_task (ensureTask s tid false) tid timeout with _ | sb | ⟨s2, r⟩
    · exact ⟨he.2.1.trans hst, he.1.trans hr, he.2.2.trans hsch⟩
    · have hp := ((submit_task_pres (ensureTask s tid false) tid timeout).2 sb hs).1
      exact ⟨(hp.2.1.trans he.2.1).trans hst, (hp.1.trans he.1).trans hr,
        (hp.2.2.trans he.2.2).trans hsch⟩
    · have hp := ((submit_task_pres (ensureTask s tid false) tid timeout).1 s2 r hs).1
      exact ⟨(hp.2.1.trans he.2.1).trans hst, (hp.1.trans he.1).trans hr,
        (hp.2.2.trans he.2.2).trans hsch⟩
  | dequeue wid =>
    have h := (worker_dequeue_pres s wid).1
    exact ⟨h.2.1.trans hst, h.1.trans hr, h.2.2.trans hsch⟩
  | complete wid =>
    have h := (worker_complete_pres s wid).1
    exact ⟨h.2.1.trans hst, h.1.trans hr, h.2.2.trans hsch⟩
  | idleTimeout wid =>
    have h := (worker_idle_timeout_pres s wid).1
    exact ⟨h.2.1.trans hst, h.1.trans hr, h.2.2.trans hsch⟩
  | cancel tid =>
    have h := (task_cancel_pres s tid).1
    exact ⟨h.2.1.trans hst, h.1.trans hr, h.2.2.trans hsch⟩

theorem runOps_sum (s : DState) (ops : List DOp) (h : (runOps s ops).2 = false) :
    sumW (runOps s ops).1 = sumW s ∧
      (runOps s ops).1.max_workers = s.max_workers := by
  induction ops generalizing s with
  | nil => exact ⟨rfl, rfl⟩
  | cons op rest ih =>
    simp only [runOps] at h ⊢
    by_cases hb : (runOp s op).2 = true
    · rw [if_pos hb] at h
      simp at h
    · rw [if_neg hb] at h ⊢
      have h1 := runOp_sum s op (by simpa using hb)
      have h2 := ih (runOp s op).1 h
      exact ⟨h2.1.trans h1.1, h2.2.trans h1.2⟩

theorem runOps_flags (s : DState) (ops : List DOp) (hst : s.started = true)
    (hr : s.running = false) (hsch : s.shutdownScheduled = true) :
    (runOps s ops).1.started = true ∧ (runOps s ops).1.running = false ∧
      (runOps s ops).1.shutdownScheduled = true := by
  induction ops generalizing s with
  | nil => exact ⟨hst, hr, hsch⟩
  | cons op rest ih =>
    simp only [runOps]
    have h1 := runOp_flags s op hst hr hsch
    by_cases hb : (runOp s op).2 = true
    · rw [if_pos hb]
      exact h1
    · rw [if_neg hb]
      exact ih (runOp s op).1 h1.1 h1.2.1 h1.2.2

theorem future_cancel_pending (s : DState) (tid : Nat) (t : TaskC)
    (hf : findTask s tid = some t) (hp : t.st = TaskSt.pending) :
    (future_cancel s tid).2 = true ∧
      findTask (future_cancel s tid).1 tid = some { t with st := TaskSt.cancelled } := by
  have hstep : future_cancel s tid =
      (invokeDoneCallbacks (updateTask s tid (fun u => { u with st := TaskSt.cancelled })) tid,
        true) := by
    unfold future_cancel
    rw [hf]
    dsimp only
    rw [hp]
  rw [hstep]
  refine ⟨rfl, ?_⟩
  rw [findTask_congr
    (invokeDoneCallbacks (updateTask s tid (fun u => { u with st := TaskSt.cancelled })) tid)
    (updateTask s tid (fun u => { u with st := TaskSt.cancelled })) tid
    (invokeDoneCallbacks_pres _ tid).2.2.2.2.1]
  rw [findTask_updateTask s tid (fun u => { u with st := TaskSt.cancelled }) (fun u => rfl)]
  rw [hf]
  rfl

/-- C2: the spec demands that a `Task` built with a non-null completion
callback fires that callback exactly once, after the terminal state; but the
constructor calls `add_done_callback` before `super().__init__()` has
installed the `Future` internals, so every such construction raises
`AttributeError` and the callback can never fire at all. -/
theorem task_with_callback_raises (func : Option Nat) (args kwargs : PyVal) (cb : Nat) :
    taskInit func args kwargs (some cb) = .error .attributeError := rfl

/-- C7: `make_task` defaults an absent `args` to the empty sequence, wraps a
single non-list/non-tuple `args` value into a one-element sequence, defaults
an absent `kwargs` to the empty mapping, and returns an input that is already
a `Task` unchanged. -/
theorem make_task_normalization (d : Descriptor) (hcb : d.callback = none) :
    (d.args = none →
      ∃ tk, make_task (.descriptor d) = .ok tk ∧ tk.args = PyVal.list []) ∧
    (∀ v, d.args = some v → v.isListOrTuple = false →
      ∃ tk, make_task (.descriptor d) = .ok tk ∧ tk.args = PyVal.list [v]) ∧
    (d.kwargs = none →
      ∃ tk, make_task (.descriptor d) = .ok tk ∧ tk.kwargs = PyVal.dict []) ∧
    (∀ t, make_task (.task t) = .ok t) := by
  obtain ⟨f, a, k, c⟩ := d
  simp only [Descriptor.callback] at hcb
  subst hcb
  refine ⟨?_, ?_, ?_, fun t => rfl⟩
  · intro h
    simp only [Descriptor.args] at h
    subst h
    exact ⟨_, rfl, rfl⟩
  · intro v h hv
    simp only [Descriptor.args] at h
    subst h
    refine ⟨_, rfl, ?_⟩
    simp [make_task, taskInit, normalizeArgs, hv, PyVal.truthy, List.isEmpty]
  · intro h
    simp only [Descriptor.kwargs] at h
    subst h
    exact ⟨_, rfl, rfl⟩

/-- Witness for C7: the spec's own example, `{func: f, args: 5, kwargs
absent, callback: None}` yields positional arguments `[5]`. -/
theorem make_task_normalization_witness :
    ∃ tk, make_task (.descriptor exampleDesc) = .ok tk ∧
      tk.args = PyVal.list [PyVal.scalar 5] :=
  (make_task_normalization exampleDesc rfl).2.1 (PyVal.scalar 5) rfl rfl

/-- C9: a `kwargs` entry that is present but not a mapping is silently
dropped: `make_task` succeeds and the resulting task has empty keyword
arguments. -/
theorem make_task_nonmapping_kwargs (d : Descriptor) (v : PyVal)
    (hk : d.kwargs = some v) (hv : v.isDict = false) (hcb : d.callback = none) :
    ∃ tk, make_task (.descriptor d) = .ok tk ∧ tk.kwargs = PyVal.dict [] := by
  obtain ⟨f, a, k, c⟩ := d
  simp only [Descriptor.kwargs] at hk
  simp only [Descriptor.callback] at hcb
  subst hk
  subst hcb
  refine ⟨_, rfl, ?_⟩
  simp [make_task, taskInit, normalizeKwargs, hv, PyVal.truthy]

/-- Witness for C9: `kwargs: 7` (a scalar, not a mapping) is replaced by the
empty mapping without an error. -/
theorem make_task_nonmapping_kwargs_witness :
    ∃ tk, make_task (.descriptor badKwargsDesc) = .ok tk ∧ tk.kwargs = PyVal.dict [] :=
  make_task_nonmapping_kwargs badKwargsDesc (PyVal.scalar 7) rfl rfl rfl

/-- C4: when the callable of a still-pending task raises an ordinary
exception, the worker stores it on the task, does not re-raise it in its own
context, and emits exactly one `ERROR_OCCURRED` event carrying it; a
process-exit signal is re-raised instead, emits nothing, stores nothing, and
terminates the worker loop with the remaining jobs unprocessed. -/
theorem worker_error_capture (isAsync : Bool) (t : ExecTask) (e : Nat)
    (hp : t.st = TaskSt.pending) (rest : List (Bool × ExecTask × CallOutcome)) :
    (worker_execute isAsync t (.raiseExn e) =
      ({ st := TaskSt.errored, result := t.result, error := some e
         hasFuture := isAsync || t.hasFuture },
       [{ error := e, form := ERROR_OCCURRED }], WorkerNext.keepRunning)) ∧
    (worker_execute isAsync t (.raiseExit e) =
      ({ st := t.st, result := t.result, error := t.error
         hasFuture := isAsync || t.hasFuture }, [], WorkerNext.exited e)) ∧
    worker_loop ((isAsync, t, .raiseExit e) :: rest) =
      ([{ st := t.st, result := t.result, error := t.error
          hasFuture := isAsync || t.hasFuture }], [], LoopStop.exitedWith e) := by
  obtain ⟨st, res, err, hf⟩ := t
  simp only [ExecTask.st] at hp
  subst hp
  cases isAsync <;> simp [worker_execute, worker_loop]

/-- Witness for C4: a pending synchronous task whose callable raises the
exception coded `3`. -/
theorem worker_error_capture_witness :
    (worker_execute false { st := .pending, result := none, error := none, hasFuture := false }
        (.raiseExn 3) =
      ({ st := TaskSt.errored, result := none, error := some 3, hasFuture := false },
       [{ error := 3, form := ERROR_OCCURRED }], WorkerNext.keepRunning)) ∧
    (worker_execute false { st := .pending, result := none, error := none, hasFuture := false }
        (.raiseExit 3) =
      ({ st := TaskSt.pending, result := none, error := none, hasFuture := false },
       [], WorkerNext.exited 3)) ∧
    worker_loop [(false, { st := .pending, result := none, error := none, hasFuture := false },
        .raiseExit 3)] =
      ([{ st := TaskSt.pending, result := none, error := none, hasFuture := false }],
       [], LoopStop.exitedWith 3) :=
  worker_error_capture false
    { st := .pending, result := none, error := none, hasFuture := false } 3 rfl []

/-- C1: on a running dispatcher, `submit_task` with `timeout == -1` enqueues
without touching the concurrency semaphore and attaches no release hook; with
any other timeout it first takes one permit (blocking the submitter when none
is free), enqueues, and attaches the done-callback that gives the permit back
when the task reaches a terminal state (`invokeDoneCallbacks` is the model of
the callback invocation performed at every terminal transition); in both
successful cases the very task that was passed in is returned. -/
theorem submit_task_contract (s : DState) (tid : Nat) (t : TaskC)
    (hrun : is_running s = true) (hfind : findTask s tid = some t)
    (hhook : t.releaseHook = false) :
    (∃ s1, submit_task s tid (some (-1)) = .ok s1 tid ∧
      s1.sem = s.sem ∧ s1.queue = s.queue ++ [tid] ∧
      ∃ u, findTask s1 tid = some u ∧ u.releaseHook = false) ∧
    (∀ timeout, timeout ≠ some (-1) → 0 < s.sem →
      ∃ s1, submit_task s tid timeout = .ok s1 tid ∧
        s1.sem + 1 = s.sem ∧ s1.queue = s.queue ++ [tid] ∧
        ∃ u, findTask s1 tid = some u ∧ u.releaseHook = true) ∧
    (∀ timeout, timeout ≠ some (-1) → s.sem = 0 →
      ∃ sb, submit_task s tid timeout = .blocked sb) ∧
    (∀ s2 u, findTask s2 tid = some u → u.releaseHook = true →
      invokeDoneCallbacks s2 tid = { s2 with sem := s2.sem + 1 }) := by
  have hni : ¬ (¬ is_running s = true) := by simp [hrun]
  refine ⟨?_, ?_, ?_, ?_⟩
  · have hstep : submit_task s tid (some (-1)) =
        SubmitResult.ok (adjust_workers
          { updateTask s tid (fun u => { u with dispatcher := true }) with
            queue := s.queue ++ [tid] }).1 tid := by
      unfold submit_task
      rw [if_neg hni]
      rfl
    refine ⟨_, hstep, ?_, ?_, ?_⟩
    · exact (adjust_pres _).2.2.1
    · exact (adjust_pres _).2.2.2.1
    · rw [findTask_congr _
        { updateTask s tid (fun u => { u with dispatcher := true }) with
          queue := s.queue ++ [tid] } tid (adjust_pres _).2.2.2.2.1]
      rw [findTask_congr
        { updateTask s tid (fun u => { u with dispatcher := true }) with
          queue := s.queue ++ [tid] }
        (updateTask s tid (fun u => { u with dispatcher := true })) tid rfl]
      rw [findTask_updateTask s tid (fun u => { u with dispatcher := true }) (fun u => rfl)]
      rw [hfind]
      exact ⟨_, rfl, hhook⟩
  · intro timeout hto hsem
    have hsem2 : 0 < (updateTask s tid (fun u => { u with dispatcher := true })).sem := hsem
    have hstep : submit_task s tid timeout =
        SubmitResult.ok (adjust_workers
          (updateTask
            { updateTask s tid (fun u => { u with dispatcher := true }) with
              sem := s.sem - 1, queue := s.queue ++ [tid] }
            tid (fun u => { u with releaseHook := true }))).1 tid := by
      unfold submit_task
      rw [if_neg hni]
      dsimp only
      rw [if_neg hto, if_pos hsem2]
      rfl
    refine ⟨_, hstep, ?_, ?_, ?_⟩
    · rw [(adjust_pres _).2.2.1]
      show s.sem - 1 + 1 = s.sem
      omega
    · exact (adjust_pres _).2.2.2.1
    · rw [findTask_congr _
        (updateTask
          { updateTask s tid (fun u => { u with dispatcher := true }) with
            sem := s.sem - 1, queue := s.queue ++ [tid] }
          tid (fun u => { u with releaseHook := true })) tid (adjust_pres _).2.2.2.2.1]
      rw [findTask_updateTask
        { updateTask s tid (fun u => { u with dispatcher := true }) with
          sem := s.sem - 1, queue := s.queue ++ [tid] }
        tid (fun u => { u with releaseHook := true }) (fun u => rfl)]
      rw [findTask_congr
        { updateTask s tid (fun u => { u with dispatcher := true }) with
          sem := s.sem - 1, queue := s.queue ++ [tid] }
        (updateTask s tid (fun u => { u with dispatcher := true })) tid rfl]
      rw [findTask_updateTask s tid (fun u => { u with dispatcher := true }) (fun u => rfl)]
      rw [hfind]
      exact ⟨_, rfl, rfl⟩
  · intro timeout hto hsem0
    have hns : ¬ 0 < (updateTask s tid (fun u => { u with dispatcher := true })).sem := by
      show ¬ 0 < s.sem
      omega
    have hstep : submit_task s tid timeout =
        SubmitResult.blocked (updateTask s tid (fun u => { u with dispatcher := true })) := by
      unfold submit_task
      rw [if_neg hni]
      dsimp only
      rw [if_neg hto, if_neg hns]
    exact ⟨_, hstep⟩
  · intro s2 u hf2 hu
    unfold invokeDoneCallbacks
    rw [hf2]
    dsimp only
    rw [if_pos hu]

/-- Witness for C1: the unbounded branch on a started one-worker dispatcher
holding one fresh task. -/
theorem submit_task_contract_witness :
    ∃ s1, submit_task startedD 0 (some (-1)) = .ok s1 0 ∧
      s1.sem = startedD.sem ∧ s1.queue = startedD.queue ++ [0] ∧
      ∃ u, findTask s1 0 = some u ∧ u.releaseHook = false :=
  (submit_task_contract startedD 0 (freshTask 0 false) rfl rfl rfl).1

/-- C3: cancelling a task that is still physically in the queue removes it
directly (waking a waiter on queue-not-full, with no worker stopped) and its
terminal state becomes cancelled; cancelling a task that is no longer queued,
has an assigned worker and is not done forcibly stops that worker, and when an
asyncio handle was stored on the task it is asked to cancel as well. -/
theorem cancel_task_contract (s : DState) (tid : Nat) (t : TaskC)
    (hfind : findTask s tid = some t) (hdisp : t.dispatcher = true)
    (hpend : t.st = TaskSt.pending) :
    (tid ∈ s.queue →
      (task_cancel s tid).1.queue = s.queue.erase tid ∧
      (task_cancel s tid).1.notFullNotify = s.notFullNotify + 1 ∧
      (task_cancel s tid).1.stoppedLog = s.stoppedLog ∧
      ∃ u, findTask (task_cancel s tid).1 tid = some u ∧ u.st = TaskSt.cancelled) ∧
    (tid ∉ s.queue → ∀ w, t.worker = some w →
      (w ∈ s.workerList.map (fun x => x.id) →
        (s.workerList.map (fun x => x.id)).Nodup →
        w ∉ (task_cancel s tid).1.workerList.map (fun x => x.id) ∧
          w ∈ (task_cancel s tid).1.stoppedLog) ∧
      (t.future = true →
        ∃ u, findTask (task_cancel s tid).1 tid = some u ∧ u.futureCancelled = true)) := by
  constructor
  · intro hq
    have h1 : task_cancel_step1 s tid =
        { s with queue := s.queue.erase tid, notFullNotify := s.notFullNotify + 1 } := by
      unfold task_cancel_step1 cancel_task
      rw [hfind]
      dsimp only
      rw [if_pos hdisp, if_pos hq]
    have hfA : findTask (task_cancel_step1 s tid) tid = some t := by
      rw [findTask_congr (task_cancel_step1 s tid) s tid (by rw [h1])]
      exact hfind
    have h2p := task_cancel_step2_pres (task_cancel_step1 s tid) tid
    have hfB : ∃ v, findTask (task_cancel_step2 (task_cancel_step1 s tid) tid) tid = some v ∧
        v.st = TaskSt.pending ∧ v.futureCancelled = t.futureCancelled ∨
        findTask (task_cancel_step2 (task_cancel_step1 s tid) tid) tid = some v ∧
        v.st = TaskSt.pending := by
      unfold task_cancel_step2
      rw [hfA]
      dsimp only
      by_cases hfu : t.future = true
      · rw [if_pos hfu]
        rw [findTask_updateTask (task_cancel_step1 s tid) tid
          (fun u => { u with futureCancelled := true }) (fun u => rfl)]
        rw [hfA]
        exact ⟨_, Or.inr ⟨rfl, hpend⟩⟩
      · rw [if_neg hfu]
        rw [hfA]
        exact ⟨_, Or.inr ⟨rfl, hpend⟩⟩
    rcases hfB with ⟨v, hv⟩
    have hv2 : findTask (task_cancel_step2 (task_cancel_step1 s tid) tid) tid = some v ∧
        v.st = TaskSt.pending := by
      rcases hv with ⟨ha, hb, _⟩ | ⟨ha, hb⟩
      · exact ⟨ha, hb⟩
      · exact ⟨ha, hb⟩
    have hfc := future_cancel_pending (task_cancel_step2 (task_cancel_step1 s tid) tid) tid v
      hv2.1 hv2.2
    have hfp := future_cancel_pres (task_cancel_step2 (task_cancel_step1 s tid) tid) tid
    refine ⟨?_, ?_, ?_, ?_⟩
    · rw [show (task_cancel s tid).1.queue =
          (task_cancel_step2 (task_cancel_step1 s tid) tid).queue from hfp.2.2.1]
      rw [h2p.2.2.2.2.2.1, h1]
    · rw [show (task_cancel s tid).1.notFullNotify =
          (task_cancel_step2 (task_cancel_step1 s tid) tid).notFullNotify from hfp.2.2.2.2.2.2.2]
      rw [h2p.2.2.2.2.2.2.2.2, h1]
    · rw [show (task_cancel s tid).1.stoppedLog =
          (task_cancel_step2 (task_cancel_step1 s tid) tid).stoppedLog from hfp.2.2.2.2.2.2.1]
      rw [h2p.2.2.2.2.2.2.2.1, h1]
    · exact ⟨_, hfc.2, rfl⟩
  · intro hq w hw
    have hdone : ¬ t.st.isDone = true := by
      rw [hpend]
      decide
    have h1 : task_cancel_step1 s tid = stop_worker1 s w := by
      unfold task_cancel_step1 cancel_task
      rw [hfind]
      dsimp only
      rw [if_pos hdisp, if_neg hq, hw]
      dsimp only
      rw [if_pos hdone]
    have h2p := task_cancel_step2_pres (task_cancel_step1 s tid) tid
    have hfp := future_cancel_pres (task_cancel_step2 (task_cancel_step1 s tid) tid) tid
    have hwl : (task_cancel s tid).1.workerList = (stop_worker1 s w).workerList := by
      rw [show (task_cancel s tid).1.workerList =
          (task_cancel_step2 (task_cancel_step1 s tid) tid).workerList from hfp.2.2.2.2.2.1]
      rw [h2p.2.2.2.2.2.2.1, h1]
    have hlog : (task_cancel s tid).1.stoppedLog = (stop_worker1 s w).stoppedLog := by
      rw [show (task_cancel s tid).1.stoppedLog =
          (task_cancel_step2 (task_cancel_step1 s tid) tid).stoppedLog from hfp.2.2.2.2.2.2.1]
      rw [h2p.2.2.2.2.2.2.2.1, h1]
    constructor
    · intro hmem hnd
      have hpws := popWorker_fst_of_mem s.workerList w hmem
      rcases hpw : popWorker s.workerList w with ⟨fst, snd⟩
      rw [hpw] at hpws
      cases fst with
      | none => simp at hpws
      | some pw =>
        have hsw1 : stop_worker1 s w =
            { s with workerList := snd, remain := s.remain + 1
                     stoppedLog := s.stoppedLog ++ [pw.id] } := by
          unfold stop_worker1
          rw [hpw]
        constructor
        · rw [hwl, hsw1]
          have hnm := popWorker_not_mem_of_nodup s.workerList w hnd
          rw [hpw] at hnm
          exact hnm
        · rw [hlog, hsw1]
          have hid := popWorker_fst_id s.workerList w pw (by rw [hpw])
          simp [hid]
    · intro hfu
      have hfA : findTask (task_cancel_step1 s tid) tid = some t := by
        rw [findTask_congr (task_cancel_step1 s tid) s tid ?_]
        · exact hfind
        · rw [h1]
          exact (stop_worker1_pres s w).2.2.2.2.1
      have h2 : task_cancel_step2 (task_cancel_step1 s tid) tid =
          updateTask (task_cancel_step1 s tid) tid
            (fun u => { u with futureCancelled := true }) := by
        unfold task_cancel_step2
        rw [hfA]
        dsimp only
        rw [if_pos hfu]
      have hfB : findTask (task_cancel_step2 (task_cancel_step1 s tid) tid) tid =
          some { t with futureCancelled := true } := by
        rw [h2]
        rw [findTask_updateTask (task_cancel_step1 s tid) tid
          (fun u => { u with futureCancelled := true }) (fun u => rfl)]
        rw [hfA]
        rfl
      have hfc := future_cancel_pending (task_cancel_step2 (task_cancel_step1 s tid) tid) tid
        { t with futureCancelled := true } hfB (by simpa using hpend)
      exact ⟨_, hfc.2, rfl⟩

/-- Witness for C3: cancelling the still-queued task of `queuedD` removes it
from the queue, wakes a not-full waiter, stops no worker, and leaves the task
cancelled. -/
theorem cancel_task_contract_witness :
    (task_cancel queuedD 0).1.queue = queuedD.queue.erase 0 ∧
      (task_cancel queuedD 0).1.notFullNotify = queuedD.notFullNotify + 1 ∧
      (task_cancel queuedD 0).1.stoppedLog = queuedD.stoppedLog ∧
      ∃ u, findTask (task_cancel queuedD 0).1 0 = some u ∧ u.st = TaskSt.cancelled :=
  (cancel_task_contract queuedD 0
    { id := 0, st := .pending, worker := none, isAsync := false, future := false
      futureCancelled := false, releaseHook := true, dispatcher := true }
    (by decide) rfl rfl).1 (by decide)

/-- C5: a worker whose five-unit dequeue wait elapses on an empty queue
deregisters itself: afterwards the registry no longer contains its name, its
slot is released, and its termination was requested. -/
theorem idle_worker_deregisters (s : DState) (wid : Nat)
    (hq : s.queue = [])
    (hmem : wid ∈ s.workerList.map (fun w => w.id))
    (hnd : (s.workerList.map (fun w => w.id)).Nodup) :
    wid ∉ (worker_idle_timeout s wid).workerList.map (fun w => w.id) ∧
      (worker_idle_timeout s wid).remain = s.remain + 1 ∧
      wid ∈ (worker_idle_timeout s wid).stoppedLog := by
  have hfs : (s.workerList.find? (fun w => w.id = wid)).isSome :=
    (find_worker_isSome _ _).mpr hmem
  have hit : worker_idle_timeout s wid = stop_worker s [wid] := by
    unfold worker_idle_timeout
    rw [if_pos ⟨hq, hfs⟩]
  rw [hit]
  have hsw : stop_worker s [wid] = stop_worker1 s wid := rfl
  rw [hsw]
  have hpws := popWorker_fst_of_mem s.workerList wid hmem
  rcases hpw : popWorker s.workerList wid with ⟨fst, snd⟩
  rw [hpw] at hpws
  cases fst with
  | none => simp at hpws
  | some pw =>
    have h1 : stop_worker1 s wid =
        { s with workerList := snd, remain := s.remain + 1
                 stoppedLog := s.stoppedLog ++ [pw.id] } := by
      unfold stop_worker1
      rw [hpw]
    rw [h1]
    refine ⟨?_, rfl, ?_⟩
    · have hnm := popWorker_not_mem_of_nodup s.workerList wid hnd
      rw [hpw] at hnm
      exact hnm
    · have hid := popWorker_fst_id s.workerList wid pw (by rw [hpw])
      simp [hid]

/-- Witness for C5: the idle worker of `idleWorkerD` deregisters on timeout. -/
theorem idle_worker_deregisters_witness :
    0 ∉ (worker_idle_timeout idleWorkerD 0).workerList.map (fun w => w.id) ∧
      (worker_idle_timeout idleWorkerD 0).remain = idleWorkerD.remain + 1 ∧
      0 ∈ (worker_idle_timeout idleWorkerD 0).stoppedLog :=
  idle_worker_deregisters idleWorkerD 0 rfl (by decide) (by decide)

/-- Counterexample to C6 as stated: from a fresh `max_workers = 1` dispatcher,
the single call `create_worker(2)` registers and starts a second worker before
its slot acquisition blocks, so the registry exceeds `max_workers`. -/
theorem create_worker_exceeds_max :
    (initD 1).max_workers < overCreateD.workerList.length := by decide

/-- C6 (amended): as long as no slot acquisition blocks — in particular under
`adjust_workers`-driven growth, which requests at most the free slots — every
operation preserves `registered workers + free slots = max_workers`, so the
live worker count never exceeds `max_workers`. -/
theorem worker_count_invariant (s : DState) (ops : List DOp)
    (hinv : sumW s = s.max_workers) (hnb : (runOps s ops).2 = false) :
    (runOps s ops).1.workerList.length ≤ s.max_workers := by
  have h := runOps_sum s ops hnb
  have h2 : sumW (runOps s ops).1 = s.max_workers := h.1.trans hinv
  unfold sumW at h2
  omega

/-- Witness for C6 (amended): a two-worker dispatcher through a full
submit/execute/idle-out cycle stays within its worker bound. -/
theorem worker_count_invariant_witness :
    sumW (initD 2) = (initD 2).max_workers ∧
      (runOps (initD 2) boundedOps).2 = false ∧
      (runOps (initD 2) boundedOps).1.workerList.length ≤ (initD 2).max_workers :=
  ⟨rfl, by decide, worker_count_invariant (initD 2) boundedOps rfl (by decide)⟩

/-- Counterexample to C8 as stated: after one task was submitted, executed and
completed on a one-worker dispatcher, the still-registered idle worker makes
`running` report `1` although no task is in flight or queued. -/
theorem running_counts_idle_workers :
    running_property idleAfterTaskD ≠ running_per_spec idleAfterTaskD := by decide

/-- C8 (amended): `running` equals the number of live registered workers plus
the number of queued tasks — `max_workers - free slots + qsize` — which
coincides with "tasks in flight or queued" only while every live worker is
executing one. -/
theorem running_is_workers_plus_queue (s : DState) (hinv : sumW s = s.max_workers) :
    running_property s = (s.workerList.length : Int) + (s.queue.length : Int) := by
  unfold running_property
  unfold sumW at hinv
  omega

/-- Witness for C8 (amended) at the idle-worker state. -/
theorem running_is_workers_plus_queue_witness :
    running_property idleAfterTaskD =
      ((idleAfterTaskD.workerList.length : Int) + (idleAfterTaskD.queue.length : Int)) :=
  running_is_workers_plus_queue idleAfterTaskD (by decide)

/-- C10: once `stop()` ran on a started dispatcher, `is_running` stays false
through every further operation sequence (the scheduled shutdown flag is
never cleared and the thread cannot be started again), so every later
`submit_task` or `create_future` call fails its running precondition. -/
theorem stop_is_permanent (s : DState) (hst : s.started = true) (ops : List DOp) :
    is_running (runOps (d_stop s) ops).1 = false ∧
      (runOps (d_stop s) ops).1.shutdownScheduled = true ∧
      (∀ tid timeout, submit_task (runOps (d_stop s) ops).1 tid timeout = .notRunning) ∧
      (∀ tid, create_future (runOps (d_stop s) ops).1 tid = .notRunning) := by
  have hstart : (d_stop s).started = true := (d_stop_pres s).2.2.trans hst
  have h := runOps_flags (d_stop s) ops hstart rfl rfl
  have hir : is_running (runOps (d_stop s) ops).1 = false := by
    unfold is_running
    rw [h.2.1]
    simp
  refine ⟨hir, h.2.2, ?_, ?_⟩
  · intro tid timeout
    unfold submit_task
    rw [if_pos (by simp [hir])]
  · intro tid
    unfold create_future
    rw [if_pos (by simp [hir])]

/-- Witness for C10: stopping a started one-worker dispatcher and then
restarting and stepping the loop still leaves it not running. -/
theorem stop_is_permanent_witness :
    is_running (runOps (d_stop (d_start (initD 1))) [DOp.start, DOp.loopStep]).1 = false ∧
      (runOps (d_stop (d_start (initD 1))) [DOp.start, DOp.loopStep]).1.shutdownScheduled = true ∧
      (∀ tid timeout,
        submit_task (runOps (d_stop (d_start (initD 1))) [DOp.start, DOp.loopStep]).1 tid timeout =
          .notRunning) ∧
      (∀ tid,
        create_future (runOps (d_stop (d_start (initD 1))) [DOp.start, DOp.loopStep]).1 tid =
          .notRunning) :=
  stop_is_permanent (d_start (initD 1)) rfl [DOp.start, DOp.loopStep]

end Bricks
